import Mathlib

set_option maxRecDepth 8192

/-!
Verification of the intent-resolution pipeline of the Saudi Government
Services Navigator (src/llm_backend.py, with the UI call sites in
src/app.py).  Text is modelled as `List Char`.  Python's case conversion,
whitespace handling and the regular expressions used by the source are
embedded directly on their ASCII fragments, which is faithful on the data
these functions manipulate (protocol markers and snake_case catalog keys
are ASCII; Arabic letters are unaffected by either case conversion).
-/

/-- ASCII lower-casing of one character (the ASCII action of Python's str.lower). -/
def pyLowerChar (c : Char) : Char :=
  if 'A' ≤ c ∧ c ≤ 'Z' then Char.ofNat (c.toNat + 32) else c

/-- ASCII upper-casing of one character (the ASCII action of Python's str.upper). -/
def pyUpperChar (c : Char) : Char :=
  if 'a' ≤ c ∧ c ≤ 'z' then Char.ofNat (c.toNat - 32) else c

/-- Python str.lower() over a whole string. -/
def pyLower (s : List Char) : List Char := s.map pyLowerChar

/-- Python str.upper() over a whole string. -/
def pyUpper (s : List Char) : List Char := s.map pyUpperChar

/-- Whitespace as recognised by Python's str.strip / str.split and the regex
class backslash-s, restricted to its ASCII members. -/
def pyIsSpace (c : Char) : Bool :=
  c = ' ' || c = '\t' || c = '\n' || c = '\r' || c = '\x0b' || c = '\x0c'

/-- Python str.strip(): remove whitespace from both ends. -/
def pyStrip (s : List Char) : List Char :=
  ((s.dropWhile pyIsSpace).reverse.dropWhile pyIsSpace).reverse

/-- Python str.strip(chars): remove any character of the set from both ends. -/
def pyStripChars (cs : List Char) (s : List Char) : List Char :=
  ((s.dropWhile cs.contains).reverse.dropWhile cs.contains).reverse

/-- Substring occurrence test: Python's `in` operator on strings. -/
def containsSub (pat : List Char) : List Char → Bool
  | [] => pat.isPrefixOf []
  | c :: rest => pat.isPrefixOf (c :: rest) || containsSub pat rest

/-- Fuelled worker for `replaceAll`.  One unit of fuel is spent per step and
every step consumes at least one character, so fuel `s.length` is always
enough; the fuelled form keeps the definition structurally recursive. -/
def replaceAllF (pat rep : List Char) : Nat → List Char → List Char
  | 0, s => s
  | _ + 1, [] => []
  | fuel + 1, c :: rest =>
    if pat ≠ [] ∧ pat.isPrefixOf (c :: rest) = true then
      rep ++ replaceAllF pat rep fuel ((c :: rest).drop pat.length)
    else
      c :: replaceAllF pat rep fuel rest

/-- Python str.replace(pat, rep): left-to-right, non-overlapping replacement. -/
def replaceAll (pat rep s : List Char) : List Char := replaceAllF pat rep s.length s

/-- Fuelled worker for `splitOnSub`. -/
def splitOnSubF (pat : List Char) : Nat → List Char → List (List Char)
  | 0, s => [s]
  | _ + 1, [] => [[]]
  | fuel + 1, c :: rest =>
    if pat ≠ [] ∧ pat.isPrefixOf (c :: rest) = true then
      [] :: splitOnSubF pat fuel ((c :: rest).drop pat.length)
    else
      match splitOnSubF pat fuel rest with
      | [] => [[c]]
      | l :: ls => (c :: l) :: ls

/-- Python str.split(pat) for a non-empty separator: non-overlapping,
left-to-right, keeping empty segments. -/
def splitOnSub (pat s : List Char) : List (List Char) := splitOnSubF pat s.length s

/-- The literal protocol marker "SERVICE_KEY:" (src/llm_backend.py lines 153-166). -/
def serviceKeyMarker : List Char := "SERVICE_KEY:".toList

/-- Fuelled worker for `subServiceKey`. -/
def subServiceKeyF : Nat → List Char → List Char
  | 0, s => s
  | _ + 1, [] => []
  | fuel + 1, c :: rest =>
    if serviceKeyMarker.isPrefixOf (c :: rest) = true ∧
        ((c :: rest).drop 12).dropWhile pyIsSpace ≠ [] then
      subServiceKeyF fuel
        ((((c :: rest).drop 12).dropWhile pyIsSpace).dropWhile (fun x => !pyIsSpace x))
    else
      c :: subServiceKeyF fuel rest

/-- Python re.sub of the pattern SERVICE_KEY: followed by optional whitespace
and one or more non-whitespace characters, replaced by the empty string
(src/llm_backend.py lines 155 and 186). -/
def subServiceKey (s : List Char) : List Char := subServiceKeyF s.length s

/-- Word characters of the regex classes backslash-w and backslash-b,
restricted to ASCII. -/
def isWordChar (c : Char) : Bool := c.isAlphanum || c == '_'

/-- Whether a maximal word-character run contains an underscore that has at
least one word character on each side, i.e. whether the regex
word+underscore+word can consume the whole run. -/
def hasInnerUnderscore (run : List Char) : Bool := ((run.drop 1).dropLast).contains '_'

/-- Remainder of the input after the regex match starting at the head of `s1`
(the word-character run, then an optional closing bracket). -/
def snakeChop (s1 : List Char) : List Char :=
  match s1.drop (s1.takeWhile isWordChar).length with
  | ']' :: t => t
  | after => after

/-- Fuelled worker for `snakeSub`. -/
def snakeSubF : Nat → List Char → List Char
  | 0, s => s
  | _ + 1, [] => []
  | fuel + 1, c :: rest =>
    if hasInnerUnderscore ((if c = '[' then rest else c :: rest).takeWhile isWordChar) = true then
      snakeSubF fuel (snakeChop (if c = '[' then rest else c :: rest))
    else
      c :: snakeSubF fuel rest

/-- Python re.sub of the snake_case-token pattern (optional opening bracket,
word+underscore+word, optional closing bracket) replaced by the empty string
(src/llm_backend.py line 185). -/
def snakeSub (s : List Char) : List Char := snakeSubF s.length s

/-- Count of characters in the Arabic Unicode block 0600-06FF
(src/llm_backend.py line 50). -/
def arabicCharCount (text : List Char) : Nat :=
  text.countP fun c => decide (0x0600 ≤ c.toNat ∧ c.toNat ≤ 0x06FF)

/-- Count of ASCII Latin letters (src/llm_backend.py line 51). -/
def latinCharCount (text : List Char) : Nat :=
  text.countP fun c => decide (('a' ≤ c ∧ c ≤ 'z') ∨ ('A' ≤ c ∧ c ≤ 'Z'))

/-- Embedding of detect_query_language (src/llm_backend.py lines 44-52). -/
def detect_query_language (text : List Char) : String :=
  if latinCharCount text < arabicCharCount text then "ar" else "en"

/-- The lower-cased, stripped form of the candidate text that
extract_service_key matches against (src/llm_backend.py line 66). -/
def candText (response : List Char) : List Char := pyStrip (pyLower response)

/-- The early rejection of replies containing "none" that are shorter than 20
characters (src/llm_backend.py line 69). -/
def noneGuard (text : List Char) : Bool :=
  containsSub "none".toList text && decide (text.length < 20)

/-- Word-character test on an optional character; absent characters (string
edges) count as non-word, as the regex word-boundary does. -/
def isWordCharOpt : Option Char → Bool
  | some c => isWordChar c
  | none => false

/-- Whether a regex word boundary holds between positions i-1 and i of `s`. -/
def wordBoundaryAt (s : List Char) (i : Nat) : Bool :=
  isWordCharOpt (if i = 0 then none else s[i-1]?) != isWordCharOpt s[i]?

/-- Whether the regex boundary+key+boundary (re.search with escaped key
between two word boundaries, src/llm_backend.py line 74) matches anywhere
in `s`. -/
def wordSearch (key s : List Char) : Bool :=
  (List.range (s.length + 1)).any fun i =>
    key.isPrefixOf (s.drop i) && wordBoundaryAt s i && wordBoundaryAt s (i + key.length)

/-- key.replace("_", " ") (src/llm_backend.py line 79). -/
def underscoreToSpace (key : List Char) : List Char :=
  key.map fun c => if c = '_' then ' ' else c

/-- Embedding of extract_service_key (src/llm_backend.py lines 58-82):
strategy A is a whole-word regex search for the key, strategy B a plain
substring search for the key with underscores replaced by spaces; the first
key to satisfy A wins, otherwise the first to satisfy B. -/
def extract_service_key (response : List Char) (valid_keys : List (List Char)) :
    Option (List Char) :=
  if noneGuard (candText response) then none
  else
    match valid_keys.find? (fun k => wordSearch k (candText response)) with
    | some k => some k
    | none =>
      valid_keys.find? (fun k => containsSub (underscoreToSpace k) (candText response))

/-- Python str.split of a string on the newline character. -/
def splitLines : List Char → List (List Char)
  | [] => [[]]
  | c :: rest =>
    match splitLines rest with
    | [] => [[c]]
    | l :: ls => if c = '\n' then [] :: l :: ls else (c :: l) :: ls

/-- The punctuation set stripped from key candidates
(src/llm_backend.py line 166). -/
def punctChars : List Char := "*`,.[]()".toList

/-- First whitespace-delimited token of a string, if any: Python
key_part.split()[0] guarded by the emptiness test of key_part.split(). -/
def firstToken (s : List Char) : Option (List Char) :=
  match s.dropWhile pyIsSpace with
  | [] => none
  | t => some (t.takeWhile fun c => !pyIsSpace c)

/-- The per-line key candidate (src/llm_backend.py lines 165-166): the text
after the last SERVICE_KEY: of the upper-cased line, stripped, its first
token lower-cased and stripped of surrounding punctuation. -/
def lineCandidate (line : List Char) : List Char :=
  match firstToken (pyStrip ((splitOnSub serviceKeyMarker (pyUpper line)).getLastD [])) with
  | some tok => pyStripChars punctChars (pyLower tok)
  | none => []

/-- One iteration of the line loop (src/llm_backend.py lines 163-169):
resolve the line's candidate and append the result when it is truthy and
not already collected. -/
def lineStep (valid_keys : List (List Char)) (acc : List (List Char)) (line : List Char) :
    List (List Char) :=
  if containsSub serviceKeyMarker (pyUpper line) then
    match extract_service_key (lineCandidate line) valid_keys with
    | some m => if !m.isEmpty && !acc.contains m then acc ++ [m] else acc
    | none => acc
  else acc

/-- The structured extraction pass (src/llm_backend.py lines 161-169). -/
def extractMatchedKeys (response : List Char) (valid_keys : List (List Char)) :
    List (List Char) :=
  if containsSub serviceKeyMarker (pyUpper response) then
    (splitLines response).foldl (lineStep valid_keys) []
  else []

/-- The unstructured fallback scan (src/llm_backend.py lines 172-176): every
catalog key occurring literally in the lower-cased reply, in catalog order. -/
def fallbackScan (response : List Char) (valid_keys : List (List Char)) :
    List (List Char) :=
  valid_keys.foldl
    (fun acc key =>
      if containsSub key (pyLower response) && !acc.contains key then acc ++ [key] else acc)
    []

/-- The final matched_keys value: structured extraction, or the fallback scan
when the structured pass collected nothing (src/llm_backend.py lines 161-176). -/
def matchedKeysOf (response : List Char) (valid_keys : List (List Char)) :
    List (List Char) :=
  if (extractMatchedKeys response valid_keys).isEmpty then
    fallbackScan response valid_keys
  else extractMatchedKeys response valid_keys

/-- The literal non-match marker (src/llm_backend.py line 153). -/
def noMatchMarker : List Char := "NO_MATCH".toList

/-- Canned Arabic not-available message (src/llm_backend.py line 157). -/
def arNotAvailable : List Char := "عذراً، هذه الخدمة غير متوفرة حالياً.".toList

/-- Canned English not-available message (src/llm_backend.py line 157). -/
def enNotAvailable : List Char := "Sorry, this service is not available.".toList

/-- Canned Arabic fallback greeting (src/llm_backend.py line 189). -/
def arHowHelp : List Char := "كيف يمكنني مساعدتك؟".toList

/-- Canned English fallback greeting (src/llm_backend.py line 189). -/
def enHowHelp : List Char := "How can I help you?".toList

/-- Canned Arabic timeout message (src/llm_backend.py line 194). -/
def arTimedOutMsg : List Char := "انتهت المهلة، حاول مرة أخرى.".toList

/-- Canned English timeout message (src/llm_backend.py line 194). -/
def enTimedOutMsg : List Char := "Request timed out. Please try again.".toList

/-- Canned Arabic invocation-error message (src/llm_backend.py line 199). -/
def arErrorMsg : List Char := "حدث خطأ، حاول مرة أخرى.".toList

/-- Canned English invocation-error message (src/llm_backend.py line 199). -/
def enErrorMsg : List Char := "An error occurred. Please try again.".toList

/-- The result dictionary of ask_llm_intent.  The service_keys field is only
present in the multi_service case, modelled by Option. -/
structure LLMResult where
  type : String
  service_key : Option (List Char)
  service_keys : Option (List (List Char))
  message : Option (List Char)
deriving DecidableEq

/-- The NO_MATCH branch (src/llm_backend.py lines 153-158): remove the
literal marker, strip, remove SERVICE_KEY fragments, strip, and fall back to
the canned not-available message when nothing remains. -/
def noMatchConversation (response : List Char) (is_arabic : Bool) : LLMResult :=
  let clean2 := pyStrip (subServiceKey (pyStrip (replaceAll noMatchMarker [] response)))
  { type := "conversation", service_key := none, service_keys := none,
    message := some (if clean2.isEmpty then
      (if is_arabic then arNotAvailable else enNotAvailable) else clean2) }

/-- The zero-keys branch (src/llm_backend.py lines 185-191): remove
snake_case-looking tokens and SERVICE_KEY fragments, and fall back to the
canned greeting when nothing remains. -/
def zeroKeysConversation (response : List Char) (is_arabic : Bool) : LLMResult :=
  let clean2 := pyStrip (subServiceKey (pyStrip (snakeSub response)))
  { type := "conversation", service_key := none, service_keys := none,
    message := some (if clean2.isEmpty then
      (if is_arabic then arHowHelp else enHowHelp) else clean2) }

/-- The pure classification of a raw model reply: src/llm_backend.py lines
152-191, everything after the subprocess call inside ask_llm_intent. -/
def parse_llm_response (response : List Char) (valid_keys : List (List Char))
    (is_arabic : Bool) : LLMResult :=
  if containsSub noMatchMarker (pyUpper response) then
    noMatchConversation response is_arabic
  else if (matchedKeysOf response valid_keys).length = 1 then
    { type := "service",
      service_key := some ((matchedKeysOf response valid_keys).headD []),
      service_keys := none, message := none }
  else if 1 < (matchedKeysOf response valid_keys).length then
    { type := "multi_service",
      service_key := some ((matchedKeysOf response valid_keys).headD []),
      service_keys := some (matchedKeysOf response valid_keys), message := none }
  else
    zeroKeysConversation response is_arabic

/-- A bilingual catalog record (a value of the SERVICES mapping loaded from
services.json; the requirements field of the source is a mapping with the
two language codes as keys, modelled as two list fields). -/
structure ServiceRecord where
  title_ar : String
  title_en : String
  description_ar : String
  description_en : String
  platform : String
  category : String
  steps_ar : List String
  steps_en : List String
  requirements_ar : List String
  requirements_en : List String
  official_link : String
deriving DecidableEq

/-- The display payload built by build_response. -/
structure DisplayRecord where
  title : String
  platform : String
  category : String
  description : String
  steps : List String
  requirements : List String
  official_link : String
deriving DecidableEq

/-- Python dict lookup SERVICES[service_key]; none models the raised
KeyError. -/
def lookupService (services : List (String × ServiceRecord)) (key : String) :
    Option ServiceRecord :=
  (services.find? fun p => p.1 == key).map Prod.snd

/-- Embedding of build_response (src/llm_backend.py lines 206-235); the
catalog is passed explicitly in place of the module-level SERVICES. -/
def build_response (services : List (String × ServiceRecord)) (service_key : String)
    (language : String) : Option DisplayRecord :=
  match lookupService services service_key with
  | none => none
  | some service =>
    if language = "en" then
      some { title := service.title_en, platform := service.platform,
             category := service.category, description := service.description_en,
             steps := service.steps_en, requirements := service.requirements_en,
             official_link := service.official_link }
    else
      some { title := service.title_ar, platform := service.platform,
             category := service.category, description := service.description_ar,
             steps := service.steps_ar, requirements := service.requirements_ar,
             official_link := service.official_link }

/-- Outcome of the external model invocation (src/llm_backend.py lines
140-149 and the two except clauses): decoded stdout on success, or the two
caught failure classes. -/
inductive InvocationResult where
  | success (raw : List Char)
  | timedOut
  | invocationError
deriving DecidableEq

/-- Embedding of ask_llm_intent (src/llm_backend.py lines 88-200) with the
subprocess call abstracted into an InvocationResult argument: the successful
stdout is stripped (line 149) and parsed; each caught exception yields the
corresponding canned conversation result. -/
def ask_llm_intent (user_query : List Char) (services : List (String × ServiceRecord))
    (invocation : InvocationResult) : LLMResult :=
  let is_arabic := detect_query_language user_query = "ar"
  let service_keys := services.map fun p => p.1.toList
  match invocation with
  | .success raw => parse_llm_response (pyStrip raw) service_keys is_arabic
  | .timedOut =>
    { type := "conversation", service_key := none, service_keys := none,
      message := some (if is_arabic then arTimedOutMsg else enTimedOutMsg) }
  | .invocationError =>
    { type := "conversation", service_key := none, service_keys := none,
      message := some (if is_arabic then arErrorMsg else enErrorMsg) }

/-- Spec-side restatement of the per-line resolution: the key a line
contributes, if any (truthiness of the match included). -/
def lineResolved (valid_keys : List (List Char)) (line : List Char) :
    Option (List Char) :=
  if containsSub serviceKeyMarker (pyUpper line) then
    match extract_service_key (lineCandidate line) valid_keys with
    | some m => if m.isEmpty then none else some m
    | none => none
  else none

/-- Order-preserving deduplication, first occurrence kept. -/
def dedupAppend (acc : List (List Char)) (xs : List (List Char)) : List (List Char) :=
  xs.foldl (fun a x => if x ∈ a then a else a ++ [x]) acc

/-- Spec-side value of the structured pass: the per-line resolved keys in
line order, deduplicated keeping first occurrences. -/
def resolvedKeysSpec (response : List Char) (valid_keys : List (List Char)) :
    List (List Char) :=
  dedupAppend [] ((splitLines response).filterMap (lineResolved valid_keys))

/-- The snake_case alphabet of catalog keys. -/
def lowerWordChars : List Char := "abcdefghijklmnopqrstuvwxyz0123456789_".toList

/-- A catalog key in canonical form: non-empty, over the snake_case alphabet,
and not rejected by the matcher's none-guard. -/
def canonicalKey (k : List Char) : Prop :=
  k ≠ [] ∧ (∀ c ∈ k, c ∈ lowerWordChars) ∧
    ¬(containsSub "none".toList k = true ∧ k.length < 20)

instance (k : List Char) : Decidable (canonicalKey k) := by
  unfold canonicalKey; infer_instance

/-- The English projection of a catalog record (the first branch of
build_response). -/
def englishProjection (svc : ServiceRecord) : DisplayRecord :=
  { title := svc.title_en, platform := svc.platform, category := svc.category,
    description := svc.description_en, steps := svc.steps_en,
    requirements := svc.requirements_en, official_link := svc.official_link }

/-- The Arabic projection of a catalog record (the default branch of
build_response). -/
def arabicProjection (svc : ServiceRecord) : DisplayRecord :=
  { title := svc.title_ar, platform := svc.platform, category := svc.category,
    description := svc.description_ar, steps := svc.steps_ar,
    requirements := svc.requirements_ar, official_link := svc.official_link }

/-- A concrete catalog record used to instantiate the general theorems. -/
def demoRecord : ServiceRecord :=
  { title_ar := "تجديد جواز السفر", title_en := "Passport Renewal",
    description_ar := "تجديد جواز السفر إلكترونياً",
    description_en := "Renew your passport online",
    platform := "Absher", category := "Travel",
    steps_ar := ["سجل الدخول", "ادفع الرسوم"],
    steps_en := ["Log in", "Pay the fee"],
    requirements_ar := ["هوية وطنية"], requirements_en := ["National ID"],
    official_link := "https://absher.sa" }

/-- A one-entry concrete catalog. -/
def demoServices : List (String × ServiceRecord) := [("passport_renewal", demoRecord)]

/-! ### Generic helper lemmas -/

theorem dropWhile_length_le (p : Char → Bool) (l : List Char) :
    (l.dropWhile p).length ≤ l.length := by
  induction l with
  | nil => simp
  | cons c rest ih =>
    rw [List.dropWhile_cons]
    split
    · exact Nat.le_trans ih (Nat.le_succ _)
    · exact Nat.le_refl _

theorem replaceAllF_congr (pat rep : List Char) :
    ∀ f1 f2 s, s.length ≤ f1 → s.length ≤ f2 →
      replaceAllF pat rep f1 s = replaceAllF pat rep f2 s := by
  intro f1
  induction f1 with
  | zero =>
    intro f2 s h1 _
    have hs : s = [] := List.length_eq_zero.mp (Nat.le_zero.mp h1)
    subst hs
    cases f2 <;> rfl
  | succ f ih =>
    intro f2 s h1 h2
    cases s with
    | nil => cases f2 <;> rfl
    | cons c rest =>
      simp only [List.length_cons] at h1 h2
      cases f2 with
      | zero => omega
      | succ g =>
        simp only [replaceAllF]
        by_cases h : pat ≠ [] ∧ pat.isPrefixOf (c :: rest) = true
        · rw [if_pos h, if_pos h]
          have hp : 1 ≤ pat.length := by
            cases pat with
            | nil => exact absurd rfl h.1
            | cons _ _ => simp
          have hd : ((c :: rest).drop pat.length).length = rest.length + 1 - pat.length := by
            simp [List.length_drop]
          rw [ih g _ (by omega) (by omega)]
        · rw [if_neg h, if_neg h]
          rw [ih g rest (by omega) (by omega)]

theorem replaceAll_cons_pos {pat : List Char} (rep : List Char) {c : Char}
    {rest : List Char} (h1 : pat ≠ []) (h2 : pat.isPrefixOf (c :: rest) = true) :
    replaceAll pat rep (c :: rest) =
      rep ++ replaceAll pat rep ((c :: rest).drop pat.length) := by
  have hp : 1 ≤ pat.length := by
    cases pat with
    | nil => exact absurd rfl h1
    | cons _ _ => simp
  show replaceAllF pat rep (rest.length + 1) (c :: rest) = _
  simp only [replaceAllF]
  rw [if_pos ⟨h1, h2⟩]
  congr 1
  apply replaceAllF_congr
  · simp [List.length_drop]; omega
  · exact Nat.le_refl _

theorem replaceAll_cons_neg {pat : List Char} (rep : List Char) {c : Char}
    {rest : List Char} (h : ¬(pat ≠ [] ∧ pat.isPrefixOf (c :: rest) = true)) :
    replaceAll pat rep (c :: rest) = c :: replaceAll pat rep rest := by
  show replaceAllF pat rep (rest.length + 1) (c :: rest) = _
  simp only [replaceAllF]
  rw [if_neg h]
  rfl

theorem splitOnSubF_congr (pat : List Char) :
    ∀ f1 f2 s, s.length ≤ f1 → s.length ≤ f2 →
      splitOnSubF pat f1 s = splitOnSubF pat f2 s := by
  intro f1
  induction f1 with
  | zero =>
    intro f2 s h1 _
    have hs : s = [] := List.length_eq_zero.mp (Nat.le_zero.mp h1)
    subst hs
    cases f2 <;> rfl
  | succ f ih =>
    intro f2 s h1 h2
    cases s with
    | nil => cases f2 <;> rfl
    | cons c rest =>
      simp only [List.length_cons] at h1 h2
      cases f2 with
      | zero => omega
      | succ g =>
        simp only [splitOnSubF]
        by_cases h : pat ≠ [] ∧ pat.isPrefixOf (c :: rest) = true
        · rw [if_pos h, if_pos h]
          have hp : 1 ≤ pat.length := by
            cases pat with
            | nil => exact absurd rfl h.1
            | cons _ _ => simp
          have hd : ((c :: rest).drop pat.length).length = rest.length + 1 - pat.length := by
            simp [List.length_drop]
          rw [ih g _ (by omega) (by omega)]
        · rw [if_neg h, if_neg h]
          rw [ih g rest (by omega) (by omega)]

theorem splitOnSub_cons_pos {pat : List Char} {c : Char} {rest : List Char}
    (h1 : pat ≠ []) (h2 : pat.isPrefixOf (c :: rest) = true) :
    splitOnSub pat (c :: rest) = [] :: splitOnSub pat ((c :: rest).drop pat.length) := by
  have hp : 1 ≤ pat.length := by
    cases pat with
    | nil => exact absurd rfl h1
    | cons _ _ => simp
  show splitOnSubF pat (rest.length + 1) (c :: rest) = _
  simp only [splitOnSubF]
  rw [if_pos ⟨h1, h2⟩]
  congr 1
  apply splitOnSubF_congr
  · simp [List.length_drop]; omega
  · exact Nat.le_refl _

theorem splitOnSub_cons_neg {pat : List Char} {c : Char} {rest : List Char}
    (h : ¬(pat ≠ [] ∧ pat.isPrefixOf (c :: rest) = true)) :
    splitOnSub pat (c :: rest) =
      match splitOnSub pat rest with
      | [] => [[c]]
      | l :: ls => (c :: l) :: ls := by
  show splitOnSubF pat (rest.length + 1) (c :: rest) = _
  simp only [splitOnSubF]
  rw [if_neg h]
  rfl

/-! ### Claims about language detection, the formatter and the failure path -/

/-- C7: detect_query_language is total over all inputs, returns exactly one
of ar and en, returns ar precisely when the count of Arabic-block characters
strictly exceeds the count of Latin letters, and resolves ties (including
the empty string, 0 versus 0) to en. -/
theorem claim_C7_detect_language (text : List Char) :
    (detect_query_language text = "ar" ∨ detect_query_language text = "en") ∧
    (detect_query_language text = "ar" ↔ latinCharCount text < arabicCharCount text) ∧
    (arabicCharCount text = latinCharCount text → detect_query_language text = "en") := by
  unfold detect_query_language
  by_cases h : latinCharCount text < arabicCharCount text
  · rw [if_pos h]
    exact ⟨Or.inl rfl, ⟨fun _ => h, fun _ => rfl⟩, fun he => absurd h (by omega)⟩
  · rw [if_neg h]
    exact ⟨Or.inr rfl, ⟨fun hc => absurd hc (by decide), fun hlt => absurd hlt h⟩,
      fun _ => rfl⟩

theorem claim_C7_witness :
    arabicCharCount [] = latinCharCount [] ∧ detect_query_language [] = "en" :=
  ⟨rfl, (claim_C7_detect_language []).2.2 rfl⟩

/-- C6: a timed-out model invocation produces a Conversation outcome whose
message is the non-empty canned timeout message of the detected language;
ask_llm_intent returns this value (it is a total function of the invocation
outcome), so no failure escapes the classification boundary. -/
theorem claim_C6_timeout (user_query : List Char)
    (services : List (String × ServiceRecord)) :
    (ask_llm_intent user_query services .timedOut).type = "conversation" ∧
    (ask_llm_intent user_query services .timedOut).message =
      some (if detect_query_language user_query = "ar" then arTimedOutMsg
            else enTimedOutMsg) ∧
    arTimedOutMsg ≠ [] ∧ enTimedOutMsg ≠ [] ∧
    (ask_llm_intent user_query services .timedOut).service_key = none ∧
    (ask_llm_intent user_query services .timedOut).service_keys = none :=
  ⟨rfl, rfl, by decide, by decide, rfl, rfl⟩

/-- C8: formatting a key present in the catalog with language en yields
exactly the English projection; in particular the steps field is the
record's steps_en list unchanged (same elements, same order). -/
theorem claim_C8_english_projection (services : List (String × ServiceRecord))
    (key : String) (svc : ServiceRecord)
    (h : lookupService services key = some svc) :
    build_response services key "en" = some (englishProjection svc) := by
  unfold build_response
  rw [h]
  rfl

theorem claim_C8_witness :
    lookupService demoServices "passport_renewal" = some demoRecord ∧
    build_response demoServices "passport_renewal" "en" =
      some (englishProjection demoRecord) ∧
    (englishProjection demoRecord).steps = demoRecord.steps_en :=
  ⟨by decide, claim_C8_english_projection _ _ _ (by decide), rfl⟩

/-- C9 counterexample: called with a key absent from the catalog, the
formatter produces no display record at all — the dictionary lookup failure
(KeyError) propagates, modelled by the none result — rather than logging and
substituting a placeholder record as the claim asserts. -/
theorem claim_C9_counterexample :
    lookupService demoServices "unknown_service" = none ∧
    build_response demoServices "unknown_service" "en" = none := by
  constructor <;> decide

/-- C9 amended: for every key absent from the catalog the formatter fails
with the propagated lookup error (no placeholder record is substituted). -/
theorem claim_C9_missing_key (services : List (String × ServiceRecord))
    (key : String) (lang : String) (h : lookupService services key = none) :
    build_response services key lang = none := by
  unfold build_response
  rw [h]

theorem claim_C9_witness :
    lookupService demoServices "unknown_service" = none ∧
    build_response demoServices "unknown_service" "ar" = none :=
  ⟨by decide, claim_C9_missing_key _ _ _ (by decide)⟩

/-- C10: every language argument other than en (for example fr, AR or the
empty string) selects the Arabic projection of the record; Arabic is the
default branch, not an error. -/
theorem claim_C10_default_arabic (services : List (String × ServiceRecord))
    (key : String) (svc : ServiceRecord) (lang : String)
    (h : lookupService services key = some svc) (hlang : lang ≠ "en") :
    build_response services key lang = some (arabicProjection svc) := by
  unfold build_response
  rw [h]
  simp only [if_neg hlang]
  rfl

theorem claim_C10_witness :
    build_response demoServices "passport_renewal" "fr" =
      some (arabicProjection demoRecord) ∧
    build_response demoServices "passport_renewal" "AR" =
      some (arabicProjection demoRecord) ∧
    build_response demoServices "passport_renewal" "" =
      some (arabicProjection demoRecord) :=
  ⟨claim_C10_default_arabic _ _ _ _ (by decide) (by decide),
   claim_C10_default_arabic _ _ _ _ (by decide) (by decide),
   claim_C10_default_arabic _ _ _ _ (by decide) (by decide)⟩

/-! ### Claims about the key matcher and the outcome invariant -/

/-- C5: the key matcher matches its own key via the whole-word strategy,
matches the underscore-to-space form via the substring strategy, yields no
match on unrelated text, and in general the first key satisfying strategy A
wins across all keys in catalog order before strategy B is considered. -/
theorem claim_C5_matcher :
    (extract_service_key "renew_driving_license".toList
        ["renew_driving_license".toList] = some "renew_driving_license".toList ∧
      wordSearch "renew_driving_license".toList
        (candText "renew_driving_license".toList) = true) ∧
    (extract_service_key "renew driving license".toList
        ["renew_driving_license".toList] = some "renew_driving_license".toList ∧
      wordSearch "renew_driving_license".toList
        (candText "renew driving license".toList) = false ∧
      containsSub (underscoreToSpace "renew_driving_license".toList)
        (candText "renew driving license".toList) = true) ∧
    (extract_service_key "unrelated text".toList
        ["renew_driving_license".toList] = none) ∧
    (∀ (cand : List Char) (keys : List (List Char)) (k : List Char),
      noneGuard (candText cand) = false →
      keys.find? (fun key => wordSearch key (candText cand)) = some k →
      extract_service_key cand keys = some k) := by
  refine ⟨⟨by decide, by decide⟩, ⟨by decide, by decide, by decide⟩, by decide, ?_⟩
  intro cand keys k h1 h2
  unfold extract_service_key
  simp only [h1, h2]
  simp

theorem claim_C5_witness :
    containsSub (underscoreToSpace "renew_driving_license".toList)
      (candText "renew driving license passport_renewal".toList) = true ∧
    extract_service_key "renew driving license passport_renewal".toList
      ["renew_driving_license".toList, "passport_renewal".toList] =
      some "passport_renewal".toList :=
  ⟨by decide,
   claim_C5_matcher.2.2.2 _ _ _ (by decide) (by decide)⟩

/-- C2: a multi_service outcome always carries at least two keys, and when
the parser's internal resolution (structured pass plus fallback) produced
exactly one key on the non-NO_MATCH path, the outcome is service with that
key — never a one-element multi_service. -/
theorem claim_C2_multiservice_invariant (response : List Char)
    (valid_keys : List (List Char)) (is_arabic : Bool) :
    ((parse_llm_response response valid_keys is_arabic).type = "multi_service" →
      ∃ l, (parse_llm_response response valid_keys is_arabic).service_keys = some l ∧
        2 ≤ l.length) ∧
    (containsSub noMatchMarker (pyUpper response) = false →
      (matchedKeysOf response valid_keys).length = 1 →
      (parse_llm_response response valid_keys is_arabic).type = "service" ∧
      (parse_llm_response response valid_keys is_arabic).service_key =
        some ((matchedKeysOf response valid_keys).headD [])) := by
  unfold parse_llm_response
  by_cases hnm : containsSub noMatchMarker (pyUpper response) = true
  · rw [if_pos hnm]
    constructor
    · intro h
      exact absurd (show "conversation" = "multi_service" from h) (by decide)
    · intro hf
      rw [hnm] at hf
      exact absurd hf (by decide)
  · have hnm' : containsSub noMatchMarker (pyUpper response) = false := by
      revert hnm; cases containsSub noMatchMarker (pyUpper response) <;> simp
    rw [if_neg hnm]
    by_cases h1 : (matchedKeysOf response valid_keys).length = 1
    · rw [if_pos h1]
      exact ⟨fun h => absurd (show "service" = "multi_service" from h) (by decide),
        fun _ _ => ⟨rfl, rfl⟩⟩
    · rw [if_neg h1]
      by_cases h2 : 1 < (matchedKeysOf response valid_keys).length
      · rw [if_pos h2]
        exact ⟨fun _ => ⟨matchedKeysOf response valid_keys, rfl, by omega⟩,
          fun _ hf => absurd hf h1⟩
      · rw [if_neg h2]
        constructor
        · intro h
          exact absurd (show "conversation" = "multi_service" from h) (by decide)
        · intro _ hf
          exact absurd hf h1

theorem claim_C2_witness :
    (∃ l,
      (parse_llm_response
        "SERVICE_KEY: passport_renewal\nSERVICE_KEY: visa_issuance".toList
        ["passport_renewal".toList, "visa_issuance".toList] false).service_keys =
        some l ∧ 2 ≤ l.length) ∧
    (parse_llm_response "SERVICE_KEY: passport_renewal".toList
      ["passport_renewal".toList, "visa_issuance".toList] false).type = "service" :=
  ⟨(claim_C2_multiservice_invariant _ _ _).1 (by decide),
   ((claim_C2_multiservice_invariant _ _ _).2 (by decide) (by decide)).1⟩

/-! ### The NO_MATCH branch: helper lemmas -/

theorem containsSub_iff (pat s : List Char) : containsSub pat s = true ↔ pat <:+: s := by
  induction s with
  | nil =>
    show pat.isPrefixOf [] = true ↔ _
    rw [List.isPrefixOf_iff_prefix]
    constructor
    · intro h; exact h.isInfix
    · intro h; rw [List.infix_nil.mp h]
  | cons c rest ih =>
    show (pat.isPrefixOf (c :: rest) || containsSub pat rest) = true ↔ _
    rw [Bool.or_eq_true, List.isPrefixOf_iff_prefix, ih, List.infix_cons_iff]

theorem pyStrip_of_all_space {s : List Char} (h : ∀ c ∈ s, pyIsSpace c = true) :
    pyStrip s = [] := by
  unfold pyStrip
  have h1 : s.dropWhile pyIsSpace = [] := by
    induction s with
    | nil => simp
    | cons c rest ih =>
      rw [List.dropWhile_cons, if_pos (h c (by simp))]
      exact ih fun x hx => h x (by simp [hx])
  rw [h1]
  simp

theorem noMatchMarker_head : noMatchMarker = 'N' :: "O_MATCH".toList := rfl

theorem replaceAll_noMatch_space_prefix :
    ∀ ws t : List Char, (∀ c ∈ ws, pyIsSpace c = true) →
      replaceAll noMatchMarker [] (ws ++ t) = ws ++ replaceAll noMatchMarker [] t := by
  intro ws
  induction ws with
  | nil => intro t _; simp
  | cons w ws' ih =>
    intro t hws
    have hw : pyIsSpace w = true := hws w (by simp)
    have hpre : ¬(noMatchMarker ≠ [] ∧
        noMatchMarker.isPrefixOf (w :: (ws' ++ t)) = true) := by
      rintro ⟨-, hp⟩
      obtain ⟨tt, htt⟩ := List.isPrefixOf_iff_prefix.mp hp
      rw [noMatchMarker_head] at htt
      simp only [List.cons_append] at htt
      have hNw : 'N' = w := (List.cons.injEq _ _ _ _).mp htt |>.1
      rw [← hNw] at hw
      exact absurd hw (by decide)
    rw [List.cons_append, replaceAll_cons_neg _ hpre,
      ih t fun x hx => hws x (by simp [hx]), List.cons_append]

theorem replaceAll_append_front (pat rep rest : List Char) (hpat : pat ≠ []) :
    replaceAll pat rep (pat ++ rest) = rep ++ replaceAll pat rep rest := by
  cases hp : pat with
  | nil => exact absurd hp hpat
  | cons a as =>
    subst hp
    have hshape : (a :: as) ++ rest = a :: (as ++ rest) := by simp
    have hprefix : (a :: as).isPrefixOf (a :: (as ++ rest)) = true := by
      rw [List.isPrefixOf_iff_prefix]
      exact ⟨rest, by simp⟩
    rw [hshape, replaceAll_cons_pos rep (by simp) hprefix]
    congr 1
    rw [← hshape, List.drop_left]

theorem replaceAll_noMatch_all_space (ws : List Char)
    (h : ∀ c ∈ ws, pyIsSpace c = true) :
    replaceAll noMatchMarker [] ws = ws := by
  have h' := replaceAll_noMatch_space_prefix ws [] h
  simp only [List.append_nil] at h'
  rw [h', show replaceAll noMatchMarker [] ([] : List Char) = [] from rfl,
    List.append_nil]

/-! ### Claims C3 and C4: the NO_MATCH branch -/

/-- C3 counterexample: the reply no_match contains the non-match marker
case-insensitively and nothing else, yet the returned Conversation message is
the leftover reply text no_match itself, not the canned not-available message
of either language — the marker removal (str.replace) is case-sensitive while
the detection is case-insensitive. -/
theorem claim_C3_counterexample :
    (parse_llm_response "no_match".toList [] false).type = "conversation" ∧
    (parse_llm_response "no_match".toList [] false).message = some "no_match".toList ∧
    "no_match".toList ≠ enNotAvailable ∧ "no_match".toList ≠ arNotAvailable :=
  ⟨by decide, by decide, by decide, by decide⟩

/-- C3 amended: for every raw reply consisting of the marker in its exact
uppercase form NO_MATCH surrounded only by whitespace, the classification
returns Conversation carrying the non-empty canned not-available message in
the detected language. -/
theorem claim_C3_canned_not_available (ws1 ws2 : List Char)
    (valid_keys : List (List Char)) (is_arabic : Bool)
    (h1 : ∀ c ∈ ws1, pyIsSpace c = true) (h2 : ∀ c ∈ ws2, pyIsSpace c = true) :
    parse_llm_response (ws1 ++ noMatchMarker ++ ws2) valid_keys is_arabic =
      { type := "conversation", service_key := none, service_keys := none,
        message := some (if is_arabic then arNotAvailable else enNotAvailable) } ∧
    arNotAvailable ≠ [] ∧ enNotAvailable ≠ [] := by
  refine ⟨?_, by decide, by decide⟩
  unfold parse_llm_response
  have hup : pyUpper ((ws1 ++ noMatchMarker) ++ ws2) =
      (pyUpper ws1 ++ noMatchMarker) ++ pyUpper ws2 := by
    unfold pyUpper
    rw [List.map_append, List.map_append,
      show List.map pyUpperChar noMatchMarker = noMatchMarker from by decide]
  have hin : containsSub noMatchMarker (pyUpper ((ws1 ++ noMatchMarker) ++ ws2)) = true := by
    rw [containsSub_iff, hup]
    exact ⟨pyUpper ws1, pyUpper ws2, rfl⟩
  rw [if_pos hin]
  unfold noMatchConversation
  have hrep : replaceAll noMatchMarker [] ((ws1 ++ noMatchMarker) ++ ws2) = ws1 ++ ws2 := by
    rw [List.append_assoc, replaceAll_noMatch_space_prefix ws1 _ h1,
      replaceAll_append_front _ _ _ (by decide),
      replaceAll_noMatch_all_space ws2 h2]
    simp
  have hall : ∀ c ∈ ws1 ++ ws2, pyIsSpace c = true := by
    intro c hc
    rcases List.mem_append.mp hc with hc1 | hc2
    · exact h1 c hc1
    · exact h2 c hc2
  have hinner : pyStrip (ws1 ++ ws2) = [] := pyStrip_of_all_space hall
  rw [hrep, hinner]
  rfl

theorem claim_C3_witness :
    parse_llm_response (([] : List Char) ++ noMatchMarker ++ ['\n']) [] true =
      { type := "conversation", service_key := none, service_keys := none,
        message := some arNotAvailable } ∧ arNotAvailable ≠ [] := by
  have h := claim_C3_canned_not_available [] ['\n'] [] true (by decide) (by decide)
  exact ⟨h.1, h.2.1⟩

/-- C4 counterexample: for the reply NO_MATCH followed by a period and the
sentence, only the literal marker is removed and the subsequent strip removes
only whitespace, so the leading period and space survive: the message is not
the claimed sentence. -/
theorem claim_C4_counterexample :
    (parse_llm_response "NO_MATCH. This service is not available.".toList [] false).message =
      some ". This service is not available.".toList ∧
    some ". This service is not available.".toList ≠
      some "This service is not available.".toList :=
  ⟨by decide, by decide⟩

/-- C4 amended: the reply NO_MATCH followed by a period and the sentence is
classified as Conversation whose message is the remainder with the marker
removed: the string ". This service is not available." with its leading
period and space retained (for either detected language, since the remainder
is non-empty). -/
theorem claim_C4_marker_stripping (valid_keys : List (List Char)) (is_arabic : Bool) :
    parse_llm_response "NO_MATCH. This service is not available.".toList
      valid_keys is_arabic =
      { type := "conversation", service_key := none, service_keys := none,
        message := some ". This service is not available.".toList } := by
  unfold parse_llm_response
  rw [if_pos (by decide)]
  cases is_arabic <;> decide

/-! ### Claim C1: helper lemmas on the snake_case alphabet -/

theorem lwc_pyLower_pyUpper : ∀ c ∈ lowerWordChars, pyLowerChar (pyUpperChar c) = c := by
  decide

theorem lwc_pyLower_id : ∀ c ∈ lowerWordChars, pyLowerChar c = c := by decide

theorem lwc_isWord : ∀ c ∈ lowerWordChars, isWordChar c = true := by decide

theorem lwc_not_space : ∀ c ∈ lowerWordChars, pyIsSpace c = false := by decide

theorem lwc_upper_not_space : ∀ c ∈ lowerWordChars, pyIsSpace (pyUpperChar c) = false := by
  decide

theorem lwc_upper_ne_colon : ∀ c ∈ lowerWordChars, pyUpperChar c ≠ ':' := by decide

theorem lwc_not_punct : ∀ c ∈ lowerWordChars, punctChars.contains c = false := by decide

/-! ### Claim C1: helper lemmas on the string primitives -/

theorem dropWhile_eq_self_of_false {p : Char → Bool} {s : List Char}
    (h : ∀ c ∈ s, p c = false) : s.dropWhile p = s := by
  cases s with
  | nil => rfl
  | cons c rest =>
    rw [List.dropWhile_cons, if_neg]
    rw [h c (by simp)]
    simp

theorem takeWhile_eq_self_of_true {p : Char → Bool} {s : List Char}
    (h : ∀ c ∈ s, p c = true) : s.takeWhile p = s := by
  induction s with
  | nil => rfl
  | cons c rest ih =>
    rw [List.takeWhile_cons, if_pos (h c (by simp))]
    rw [ih fun x hx => h x (by simp [hx])]

theorem pyStrip_eq_self {s : List Char} (h : ∀ c ∈ s, pyIsSpace c = false) :
    pyStrip s = s := by
  unfold pyStrip
  rw [dropWhile_eq_self_of_false h,
    dropWhile_eq_self_of_false fun c hc => h c (List.mem_reverse.mp hc),
    List.reverse_reverse]

theorem stripChars_eq_self {cs : List Char} {s : List Char}
    (h : ∀ c ∈ s, cs.contains c = false) : pyStripChars cs s = s := by
  unfold pyStripChars
  rw [dropWhile_eq_self_of_false h,
    dropWhile_eq_self_of_false fun c hc => h c (List.mem_reverse.mp hc),
    List.reverse_reverse]

theorem firstToken_of_nonspace {s : List Char} (hne : s ≠ [])
    (hall : ∀ c ∈ s, pyIsSpace c = false) : firstToken s = some s := by
  unfold firstToken
  rw [dropWhile_eq_self_of_false hall]
  cases s with
  | nil => exact absurd rfl hne
  | cons a t =>
    show some ((a :: t).takeWhile fun c => !pyIsSpace c) = some (a :: t)
    rw [takeWhile_eq_self_of_true fun c hc => by rw [hall c hc]; rfl]

/-! ### Claim C1: helper lemmas on line splitting -/

theorem splitLines_cons (c : Char) (rest : List Char) :
    splitLines (c :: rest) =
      match splitLines rest with
      | [] => [[c]]
      | l :: ls => if c = '\n' then [] :: l :: ls else (c :: l) :: ls := rfl

theorem splitLines_cons_eq (c : Char) (rest l₀ : List Char) (ls : List (List Char))
    (h : splitLines rest = l₀ :: ls) :
    splitLines (c :: rest) = if c = '\n' then [] :: l₀ :: ls else (c :: l₀) :: ls := by
  rw [splitLines_cons, h]

theorem splitLines_shape (s : List Char) :
    ∃ l₀ ls, splitLines s = l₀ :: ls ∧ l₀ <+: s := by
  induction s with
  | nil => exact ⟨[], [], rfl, List.nil_prefix⟩
  | cons c rest ih =>
    obtain ⟨l₀, ls, hsp, hpre⟩ := ih
    by_cases hc : c = '\n'
    · exact ⟨[], l₀ :: ls, by rw [splitLines_cons_eq c rest l₀ ls hsp, if_pos hc],
        List.nil_prefix⟩
    · refine ⟨c :: l₀, ls, by rw [splitLines_cons_eq c rest l₀ ls hsp, if_neg hc], ?_⟩
      obtain ⟨t, ht⟩ := hpre
      exact ⟨t, by rw [List.cons_append, ht]⟩

theorem splitLines_mem_infix (s : List Char) :
    ∀ l, l ∈ splitLines s → l <:+: s := by
  induction s with
  | nil =>
    intro l hl
    have hl' : l = [] := by simpa [splitLines] using hl
    subst hl'
    exact List.nil_infix
  | cons c rest ih =>
    intro l hl
    obtain ⟨l₀, ls, hsp, hpre⟩ := splitLines_shape rest
    rw [splitLines_cons_eq c rest l₀ ls hsp] at hl
    by_cases hc : c = '\n'
    · rw [if_pos hc] at hl
      rcases List.mem_cons.mp hl with h | h
      · subst h; exact List.nil_infix
      · exact List.infix_cons (ih l (by rw [hsp]; exact h))
    · rw [if_neg hc] at hl
      rcases List.mem_cons.mp hl with h | h
      · subst h
        obtain ⟨t, ht⟩ := hpre
        exact (show (c :: l₀) <+: (c :: rest) from ⟨t, by rw [List.cons_append, ht]⟩).isInfix
      · exact List.infix_cons (ih l (by rw [hsp]; exact List.mem_cons_of_mem _ h))

/-! ### Claim C1: helper lemmas on the marker split -/

theorem splitOnSub_append_front (pat rest : List Char) (hpat : pat ≠ []) :
    splitOnSub pat (pat ++ rest) = [] :: splitOnSub pat rest := by
  cases hp : pat with
  | nil => exact absurd hp hpat
  | cons a as =>
    subst hp
    have hshape : (a :: as) ++ rest = a :: (as ++ rest) := by simp
    have hprefix : (a :: as).isPrefixOf (a :: (as ++ rest)) = true := by
      rw [List.isPrefixOf_iff_prefix]
      exact ⟨rest, by simp⟩
    rw [hshape, splitOnSub_cons_pos (by simp) hprefix]
    congr 1
    rw [← hshape, List.drop_left]

theorem splitOnSub_no_occurrence {pat : List Char} (hcolon : ':' ∈ pat) :
    ∀ s : List Char, ':' ∉ s → splitOnSub pat s = [s] := by
  intro s
  induction s with
  | nil => intro _; rfl
  | cons c rest ih =>
    intro hs
    have hcond : ¬(pat ≠ [] ∧ pat.isPrefixOf (c :: rest) = true) := by
      rintro ⟨-, hp⟩
      exact hs ((List.isPrefixOf_iff_prefix.mp hp).subset hcolon)
    rw [splitOnSub_cons_neg hcond, ih fun h => hs (List.mem_cons_of_mem _ h)]

/-! ### Claim C1: the whole-word search on a canonical key -/

theorem wordSearch_self (k : List Char) (hk0 : k ≠ [])
    (hw : ∀ c ∈ k, isWordChar c = true) : wordSearch k k = true := by
  unfold wordSearch
  rw [List.any_eq_true]
  refine ⟨0, List.mem_range.mpr (by omega), ?_⟩
  show (k.isPrefixOf (k.drop 0) && wordBoundaryAt k 0 && wordBoundaryAt k (0 + k.length)) = true
  have h1 : k.isPrefixOf (k.drop 0) = true := by
    rw [List.drop_zero]
    exact List.isPrefixOf_iff_prefix.mpr (List.prefix_refl _)
  have h2 : wordBoundaryAt k 0 = true := by
    unfold wordBoundaryAt
    rw [if_pos rfl]
    cases k with
    | nil => exact absurd rfl hk0
    | cons a t =>
      have ha : isWordChar a = true := hw a (by simp)
      show (isWordCharOpt none != isWordCharOpt (a :: t)[0]?) = true
      rw [List.getElem?_cons_zero]
      show (false != isWordChar a) = true
      rw [ha]
      rfl
  have h3 : wordBoundaryAt k (0 + k.length) = true := by
    rw [Nat.zero_add]
    unfold wordBoundaryAt
    have hlpos : 0 < k.length := List.length_pos.mpr hk0
    rw [if_neg (by omega)]
    rw [List.getElem?_eq_none (Nat.le_refl k.length)]
    cases hq : (k[k.length - 1]? : Option Char) with
    | none =>
      rw [List.getElem?_eq_none_iff] at hq
      omega
    | some a =>
      have ha : a ∈ k := List.getElem?_mem hq
      show (isWordChar a != false) = true
      rw [hw a ha]
      rfl
  rw [h1, h2, h3]
  rfl

theorem wordSearch_unique (k : List Char) (_hk0 : k ≠ [])
    (hw : ∀ c ∈ k, isWordChar c = true) (k' : List Char) (hk'0 : k' ≠ [])
    (h : wordSearch k' k = true) : k' = k := by
  unfold wordSearch at h
  rw [List.any_eq_true] at h
  obtain ⟨i, hir, hbody⟩ := h
  rw [List.mem_range] at hir
  rw [Bool.and_eq_true, Bool.and_eq_true] at hbody
  obtain ⟨⟨hpre, hb1⟩, hb2⟩ := hbody
  rw [List.isPrefixOf_iff_prefix] at hpre
  have hk'pos : 0 < k'.length := List.length_pos.mpr hk'0
  have hi0 : i = 0 := by
    by_contra hne
    have hilt : i < k.length := by
      rcases Nat.lt_or_ge i k.length with hlt | hge
      · exact hlt
      · have hieq : i = k.length := by omega
        subst hieq
        rw [List.drop_length] at hpre
        exact absurd (List.prefix_nil.mp hpre) hk'0
    unfold wordBoundaryAt at hb1
    rw [if_neg hne] at hb1
    cases hq1 : (k[i - 1]? : Option Char) with
    | none =>
      rw [List.getElem?_eq_none_iff] at hq1
      omega
    | some a =>
      cases hq2 : (k[i]? : Option Char) with
      | none =>
        rw [List.getElem?_eq_none_iff] at hq2
        omega
      | some b =>
        rw [hq1, hq2] at hb1
        have ha := hw a (List.getElem?_mem hq1)
        have hb := hw b (List.getElem?_mem hq2)
        rw [show isWordCharOpt (some a) = isWordChar a from rfl,
          show isWordCharOpt (some b) = isWordChar b from rfl, ha, hb] at hb1
        exact absurd hb1 (by decide)
  subst hi0
  rw [List.drop_zero] at hpre
  have hll : k'.length = k.length := by
    by_contra hne
    have hlt : k'.length < k.length := by
      have := hpre.length_le
      omega
    rw [Nat.zero_add] at hb2
    unfold wordBoundaryAt at hb2
    rw [if_neg (by omega)] at hb2
    cases hq1 : (k[k'.length - 1]? : Option Char) with
    | none =>
      rw [List.getElem?_eq_none_iff] at hq1
      omega
    | some a =>
      cases hq2 : (k[k'.length]? : Option Char) with
      | none =>
        rw [List.getElem?_eq_none_iff] at hq2
        omega
      | some b =>
        rw [hq1, hq2] at hb2
        have ha := hw a (List.getElem?_mem hq1)
        have hb := hw b (List.getElem?_mem hq2)
        rw [show isWordCharOpt (some a) = isWordChar a from rfl,
          show isWordCharOpt (some b) = isWordChar b from rfl, ha, hb] at hb2
        exact absurd hb2 (by decide)
  exact hpre.eq_of_length hll

theorem find?_eq_of_unique {p : List Char → Bool} {keys : List (List Char)}
    {k : List Char} (hiff : ∀ x ∈ keys, p x = true ↔ x = k) (hmem : k ∈ keys) :
    keys.find? p = some k := by
  induction keys with
  | nil => simp at hmem
  | cons a t ih =>
    by_cases hpa : p a = true
    · have ha : a = k := (hiff a (by simp)).mp hpa
      subst ha
      rw [List.find?_cons_of_pos _ hpa]
    · rw [List.find?_cons_of_neg _ (by simpa using hpa)]
      have hmem' : k ∈ t := by
        rcases List.mem_cons.mp hmem with h | h
        · subst h
          exact absurd ((hiff k (by simp)).mpr rfl) hpa
        · exact h
      exact ih (fun x hx => hiff x (by simp [hx])) hmem'

theorem noneGuard_false_of {k : List Char}
    (h : ¬(containsSub "none".toList k = true ∧ k.length < 20)) :
    noneGuard k = false := by
  unfold noneGuard
  cases hc : containsSub "none".toList k with
  | false => rfl
  | true =>
    rw [Bool.true_and]
    cases hl : decide (k.length < 20) with
    | false => rfl
    | true => exact absurd ⟨hc, of_decide_eq_true hl⟩ h

/-- The matcher applied to a canonical catalog key resolves it to itself:
the none-guard is off, no other key can whole-word match inside an
all-word-character candidate, and the key matches itself whole-word. -/
theorem extract_goodkey (valid_keys : List (List Char)) (k : List Char)
    (hkeys : ∀ x ∈ valid_keys, canonicalKey x) (hkmem : k ∈ valid_keys) :
    extract_service_key k valid_keys = some k := by
  obtain ⟨hk0, hkchars, hkng⟩ := hkeys k hkmem
  have hnospace : ∀ c ∈ k, pyIsSpace c = false := fun c hc =>
    lwc_not_space c (hkchars c hc)
  have hct : candText k = k := by
    unfold candText
    have hlow : pyLower k = k := by
      show List.map pyLowerChar k = k
      rw [List.map_congr_left fun c hc => lwc_pyLower_id c (hkchars c hc)]
      simp
    rw [hlow, pyStrip_eq_self hnospace]
  have hwk : ∀ c ∈ k, isWordChar c = true := fun c hc => lwc_isWord c (hkchars c hc)
  unfold extract_service_key
  rw [hct, noneGuard_false_of hkng]
  rw [if_neg (by decide)]
  have hfind : valid_keys.find? (fun x => wordSearch x k) = some k := by
    refine find?_eq_of_unique ?_ hkmem
    intro x hx
    obtain ⟨hx0, -, -⟩ := hkeys x hx
    exact ⟨wordSearch_unique k hk0 hwk x hx0, fun he => he ▸ wordSearch_self k hk0 hwk⟩
  rw [hfind]

/-! ### Claim C1: a canonical key line resolves to its key -/

theorem pyUpper_goodline (k : List Char) :
    pyUpper ("SERVICE_KEY: ".toList ++ k) = serviceKeyMarker ++ (' ' :: pyUpper k) := by
  show List.map pyUpperChar ("SERVICE_KEY: ".toList ++ k) = _
  rw [List.map_append,
    show List.map pyUpperChar "SERVICE_KEY: ".toList = serviceKeyMarker ++ [' '] from by
      decide,
    List.append_assoc]
  rfl

theorem colon_not_mem_tail {k : List Char} (hkchars : ∀ c ∈ k, c ∈ lowerWordChars) :
    ':' ∉ ' ' :: pyUpper k := by
  intro hmem
  rcases List.mem_cons.mp hmem with h | h
  · exact absurd h (by decide)
  · obtain ⟨c, hc, hce⟩ := List.mem_map.mp h
    exact lwc_upper_ne_colon c (hkchars c hc) hce

theorem lineCandidate_goodline (k : List Char) (hk0 : k ≠ [])
    (hkchars : ∀ c ∈ k, c ∈ lowerWordChars) :
    lineCandidate ("SERVICE_KEY: ".toList ++ k) = k := by
  have hsplit : splitOnSub serviceKeyMarker (serviceKeyMarker ++ (' ' :: pyUpper k)) =
      [[], ' ' :: pyUpper k] := by
    rw [splitOnSub_append_front _ _ (by decide),
      splitOnSub_no_occurrence (by decide) _ (colon_not_mem_tail hkchars)]
  have hnospace : ∀ c ∈ pyUpper k, pyIsSpace c = false := by
    intro c hc
    obtain ⟨a, ha, hae⟩ := List.mem_map.mp hc
    rw [← hae]
    exact lwc_upper_not_space a (hkchars a ha)
  have hstrip : pyStrip (' ' :: pyUpper k) = pyUpper k := by
    unfold pyStrip
    rw [List.dropWhile_cons, if_pos (by decide),
      dropWhile_eq_self_of_false hnospace,
      dropWhile_eq_self_of_false fun c hc => hnospace c (List.mem_reverse.mp hc),
      List.reverse_reverse]
  have hup_ne : pyUpper k ≠ [] := by
    intro h
    exact hk0 (List.map_eq_nil_iff.mp h)
  have hft : firstToken (pyUpper k) = some (pyUpper k) :=
    firstToken_of_nonspace hup_ne hnospace
  have hlow : pyLower (pyUpper k) = k := by
    show List.map pyLowerChar (List.map pyUpperChar k) = k
    have hrt : ∀ s : List Char, (∀ c ∈ s, c ∈ lowerWordChars) →
        List.map pyLowerChar (List.map pyUpperChar s) = s := by
      intro s
      induction s with
      | nil => intro _; rfl
      | cons a t ih =>
        intro h
        simp only [List.map_cons]
        rw [lwc_pyLower_pyUpper a (h a (by simp)), ih fun c hc => h c (by simp [hc])]
    exact hrt k hkchars
  have hpunct : pyStripChars punctChars k = k :=
    stripChars_eq_self fun c hc => lwc_not_punct c (hkchars c hc)
  unfold lineCandidate
  rw [pyUpper_goodline k, hsplit,
    show ([[], ' ' :: pyUpper k] : List (List Char)).getLastD [] = ' ' :: pyUpper k from
      rfl,
    hstrip, hft]
  show pyStripChars punctChars (pyLower (pyUpper k)) = k
  rw [hlow, hpunct]

theorem lineResolved_goodline (valid_keys : List (List Char)) (k : List Char)
    (hkeys : ∀ x ∈ valid_keys, canonicalKey x) (hkmem : k ∈ valid_keys) :
    lineResolved valid_keys ("SERVICE_KEY: ".toList ++ k) = some k := by
  obtain ⟨hk0, hkchars, -⟩ := hkeys k hkmem
  have hguard : containsSub serviceKeyMarker (pyUpper ("SERVICE_KEY: ".toList ++ k)) =
      true := by
    rw [containsSub_iff, pyUpper_goodline k]
    exact (List.prefix_append serviceKeyMarker (' ' :: pyUpper k)).isInfix
  unfold lineResolved
  rw [if_pos hguard, lineCandidate_goodline k hk0 hkchars,
    extract_goodkey valid_keys k hkeys hkmem]
  cases k with
  | nil => exact absurd rfl hk0
  | cons a t => rfl

/-! ### Claim C1: the line fold equals the deduplicated resolved sequence -/

theorem lineStep_eq (valid_keys : List (List Char)) (acc : List (List Char))
    (line : List Char) :
    lineStep valid_keys acc line =
      match lineResolved valid_keys line with
      | some m => if m ∈ acc then acc else acc ++ [m]
      | none => acc := by
  unfold lineStep lineResolved
  by_cases hg : containsSub serviceKeyMarker (pyUpper line) = true
  · rw [if_pos hg, if_pos hg]
    cases hx : extract_service_key (lineCandidate line) valid_keys with
    | none => rfl
    | some m =>
      cases m with
      | nil => rfl
      | cons a t =>
        by_cases hmem : (a :: t) ∈ acc
        · have hcont : acc.contains (a :: t) = true := List.elem_iff.mpr hmem
          simp [hcont, hmem]
        · have hcont : acc.contains (a :: t) = false := by
            cases hq : acc.contains (a :: t) with
            | false => rfl
            | true => exact absurd (List.elem_iff.mp hq) hmem
          simp [hcont, hmem]
  · rw [if_neg hg, if_neg hg]

theorem foldl_lineStep_eq (valid_keys : List (List Char)) :
    ∀ (lines : List (List Char)) (acc : List (List Char)),
      lines.foldl (lineStep valid_keys) acc =
        dedupAppend acc (lines.filterMap (lineResolved valid_keys)) := by
  intro lines
  induction lines with
  | nil => intro acc; rfl
  | cons l rest ih =>
    intro acc
    rw [List.foldl_cons, List.filterMap_cons]
    cases hr : lineResolved valid_keys l with
    | none =>
      rw [lineStep_eq, hr]
      exact ih acc
    | some m =>
      rw [lineStep_eq, hr, ih]
      rfl

theorem dedupAppend_ne_nil :
    ∀ (xs acc : List (List Char)), acc ≠ [] → dedupAppend acc xs ≠ [] := by
  intro xs
  induction xs with
  | nil => intro acc h; exact h
  | cons x rest ih =>
    intro acc h
    show dedupAppend (if x ∈ acc then acc else acc ++ [x]) rest ≠ []
    by_cases hx : x ∈ acc
    · rw [if_pos hx]; exact ih acc h
    · rw [if_neg hx]; exact ih _ (by simp)

theorem dedupAppend_ne_nil_of_mem :
    ∀ (xs : List (List Char)) (x : List Char) (acc : List (List Char)),
      x ∈ xs → dedupAppend acc xs ≠ [] := by
  intro xs
  induction xs with
  | nil => intro x acc h; simp at h
  | cons y rest ih =>
    intro x acc _
    show dedupAppend (if y ∈ acc then acc else acc ++ [y]) rest ≠ []
    by_cases hy : y ∈ acc
    · rw [if_pos hy]
      exact dedupAppend_ne_nil rest acc (by rintro rfl; simp at hy)
    · rw [if_neg hy]
      exact dedupAppend_ne_nil rest _ (by simp)

theorem extractMatchedKeys_eq {response : List Char} {valid_keys : List (List Char)}
    (hg : containsSub serviceKeyMarker (pyUpper response) = true) :
    extractMatchedKeys response valid_keys = resolvedKeysSpec response valid_keys := by
  unfold extractMatchedKeys resolvedKeysSpec
  rw [if_pos hg]
  exact foldl_lineStep_eq valid_keys (splitLines response) []

/-! ### Claim C1 -/

/-- C1 counterexample: the reply consisting of the line NO_MATCH followed by
a well-formed SERVICE_KEY line with a valid catalog key is classified as
Conversation, not Service or MultiService — the non-match branch is checked
first and swallows the key line. -/
theorem claim_C1_counterexample :
    (("SERVICE_KEY: ".toList ++ "passport_renewal".toList) ∈
      splitLines "NO_MATCH\nSERVICE_KEY: passport_renewal".toList) ∧
    "passport_renewal".toList ∈ ["passport_renewal".toList] ∧
    (parse_llm_response "NO_MATCH\nSERVICE_KEY: passport_renewal".toList
      ["passport_renewal".toList] false).type = "conversation" ∧
    (parse_llm_response "NO_MATCH\nSERVICE_KEY: passport_renewal".toList
      ["passport_renewal".toList] false).type ≠ "service" ∧
    (parse_llm_response "NO_MATCH\nSERVICE_KEY: passport_renewal".toList
      ["passport_renewal".toList] false).type ≠ "multi_service" :=
  ⟨by decide, by decide, by decide, by decide, by decide⟩

/-- C1 amended: for every raw reply that does not contain the non-match
marker (checked first by the code) and contains at least one well-formed
SERVICE_KEY line whose key is a valid catalog key (catalog keys being
non-empty snake_case tokens that do not trip the none-rejection), the
classification returns Service when exactly one distinct key is resolved and
MultiService when two or more are, and the returned keys are exactly the
per-line resolved keys, deduplicated, in first-occurrence line order
(resolvedKeysSpec). -/
theorem claim_C1_structured_keys (response : List Char)
    (valid_keys : List (List Char)) (is_arabic : Bool)
    (hkeys : ∀ x ∈ valid_keys, canonicalKey x)
    (hnm : containsSub noMatchMarker (pyUpper response) = false)
    (hline : ∃ k ∈ valid_keys, ("SERVICE_KEY: ".toList ++ k) ∈ splitLines response) :
    1 ≤ (resolvedKeysSpec response valid_keys).length ∧
    ((resolvedKeysSpec response valid_keys).length = 1 →
      parse_llm_response response valid_keys is_arabic =
        { type := "service",
          service_key := some ((resolvedKeysSpec response valid_keys).headD []),
          service_keys := none, message := none }) ∧
    (2 ≤ (resolvedKeysSpec response valid_keys).length →
      parse_llm_response response valid_keys is_arabic =
        { type := "multi_service",
          service_key := some ((resolvedKeysSpec response valid_keys).headD []),
          service_keys := some (resolvedKeysSpec response valid_keys),
          message := none }) := by
  obtain ⟨k, hkmem, hlmem⟩ := hline
  have hg : containsSub serviceKeyMarker (pyUpper response) = true := by
    rw [containsSub_iff]
    have hlin : ("SERVICE_KEY: ".toList ++ k) <:+: response :=
      splitLines_mem_infix response _ hlmem
    obtain ⟨s, t, hst⟩ := hlin
    have hm : serviceKeyMarker <:+: pyUpper ("SERVICE_KEY: ".toList ++ k) := by
      rw [pyUpper_goodline k]
      exact (List.prefix_append serviceKeyMarker (' ' :: pyUpper k)).isInfix
    have hmap : pyUpper ("SERVICE_KEY: ".toList ++ k) <:+: pyUpper response := by
      refine ⟨pyUpper s, pyUpper t, ?_⟩
      show List.map pyUpperChar s ++ List.map pyUpperChar _ ++ List.map pyUpperChar t =
        List.map pyUpperChar response
      rw [← List.map_append, ← List.map_append, hst]
    exact hm.trans hmap
  have hres : lineResolved valid_keys ("SERVICE_KEY: ".toList ++ k) = some k :=
    lineResolved_goodline valid_keys k hkeys hkmem
  have hmemf : k ∈ (splitLines response).filterMap (lineResolved valid_keys) :=
    List.mem_filterMap.mpr ⟨_, hlmem, hres⟩
  have hne : resolvedKeysSpec response valid_keys ≠ [] := by
    unfold resolvedKeysSpec
    exact dedupAppend_ne_nil_of_mem _ k [] hmemf
  have hlen : 1 ≤ (resolvedKeysSpec response valid_keys).length := by
    have := List.length_pos.mpr hne
    omega
  have hM : matchedKeysOf response valid_keys = resolvedKeysSpec response valid_keys := by
    unfold matchedKeysOf
    rw [extractMatchedKeys_eq hg,
      if_neg fun hie => hne (List.isEmpty_iff.mp hie)]
  refine ⟨hlen, ?_, ?_⟩
  · intro h1
    unfold parse_llm_response
    rw [hnm, if_neg (by decide), hM, if_pos h1]
  · intro h2
    unfold parse_llm_response
    rw [hnm, if_neg (by decide), hM,
      if_neg (by omega), if_pos (by omega)]

theorem claim_C1_witness :
    (∀ x ∈ ["passport_renewal".toList], canonicalKey x) ∧
    containsSub noMatchMarker
      (pyUpper "SERVICE_KEY: passport_renewal\nSERVICE_KEY: passport_renewal\n".toList) =
      false ∧
    resolvedKeysSpec
      "SERVICE_KEY: passport_renewal\nSERVICE_KEY: passport_renewal\n".toList
      ["passport_renewal".toList] = ["passport_renewal".toList] ∧
    parse_llm_response
      "SERVICE_KEY: passport_renewal\nSERVICE_KEY: passport_renewal\n".toList
      ["passport_renewal".toList] false =
      { type := "service", service_key := some "passport_renewal".toList,
        service_keys := none, message := none } := by
  refine ⟨by decide, by decide, by decide, ?_⟩
  have h := claim_C1_structured_keys
    "SERVICE_KEY: passport_renewal\nSERVICE_KEY: passport_renewal\n".toList
    ["passport_renewal".toList] false (by decide) (by decide)
    ⟨"passport_renewal".toList, by decide, by decide⟩
  have h1 := h.2.1 (by decide)
  rw [h1]
  have hh : (resolvedKeysSpec
      "SERVICE_KEY: passport_renewal\nSERVICE_KEY: passport_renewal\n".toList
      ["passport_renewal".toList]).headD [] = "passport_renewal".toList := by decide
  rw [hh]
